import Mathlib

/-!
  Verification of the xelis-blockchain core against its specification.

  The Rust source is shallowly embedded: pure functions become Lean
  functions, `HashMap`s become association lists with the same
  find/insert semantics, machine integers become `Nat` (with explicit
  `% 2 ^ w` where overflow matters), fallible code returns
  `Except`/`Option`, and storage writes are modelled as explicit logs.

  Conventions used throughout:
  * A block `Hash` is 32 raw bytes totally ordered lexicographically
    (`xelis_common::crypto::hash`); lexicographic order on fixed-length
    byte strings agrees with numeric order of the big-endian value, so a
    hash is modelled as that numeric value, a `Nat`.
  * `Difficulty` (`xelis_common::block::Difficulty`) is an unsigned
    integer, modelled as `Nat` with its numeric order.
  * Public keys are opaque identifiers compared for equality only,
    modelled as `Nat`.
-/

namespace Xelis

/-! ## 4.C DAG ordering — `src/xelis_daemon/src/core/blockdag.rs`

Scores are `(hash, cumulative_difficulty)` pairs, modelled as
`Nat × Nat`. -/

/-- The comparator passed to `sort_by` in
`sort_descending_by_cumulative_difficulty`
(`blockdag.rs:8-14`): `if a != b { b.cmp(a) } else { b_hash.cmp(a_hash) }`
on pairs `(hash, cumulative_difficulty)`. -/
def scoreCmp (x y : Nat × Nat) : Ordering :=
  if x.2 ≠ y.2 then compare y.2 x.2 else compare y.1 x.1

/-- `Vec::sort_by` keeps `a` before `b` exactly when the comparator does
not answer `Greater`; this boolean is the order the stable sort realises. -/
def scoreLe (x y : Nat × Nat) : Bool :=
  scoreCmp x y ≠ Ordering.gt

/-- `sort_descending_by_cumulative_difficulty` (`blockdag.rs:7-19`).
`Vec::sort_by` is a stable sort directed by the comparator; it is
embedded as the stable `List.mergeSort` over `scoreLe`. -/
def sort_descending_by_cumulative_difficulty
    (scores : List (Nat × Nat)) : List (Nat × Nat) :=
  scores.mergeSort scoreLe

/-- The order realised by the comparator, in propositional form:
strictly higher cumulative difficulty first; on equal difficulty,
higher hash first. -/
def ScoreRel (x y : Nat × Nat) : Prop :=
  y.2 < x.2 ∨ (x.2 = y.2 ∧ y.1 ≤ x.1)

theorem scoreLe_iff (x y : Nat × Nat) :
    scoreLe x y = true ↔ ScoreRel x y := by
  unfold scoreLe scoreCmp ScoreRel
  by_cases h : x.2 = y.2
  · rw [if_neg (by simp [h]), decide_eq_true_iff]
    simp only [ne_eq, Nat.compare_eq_gt]
    omega
  · rw [if_pos h, decide_eq_true_iff]
    simp only [ne_eq, Nat.compare_eq_gt]
    omega

theorem scoreLe_total (x y : Nat × Nat) :
    scoreLe x y || scoreLe y x := by
  rw [Bool.or_eq_true, scoreLe_iff, scoreLe_iff]
  unfold ScoreRel
  omega

theorem scoreLe_trans (x y z : Nat × Nat) :
    scoreLe x y → scoreLe y z → scoreLe x z := by
  intro h1 h2
  rw [scoreLe_iff] at h1 h2 ⊢
  unfold ScoreRel at h1 h2 ⊢
  omega

theorem sort_scores_pairwise (l : List (Nat × Nat)) :
    List.Pairwise ScoreRel (sort_descending_by_cumulative_difficulty l) := by
  have h := @List.sorted_mergeSort (Nat × Nat) scoreLe scoreLe_trans
    (fun a b => scoreLe_total a b) l
  exact h.imp (fun ha => (scoreLe_iff _ _).mp ha)

theorem sort_scores_perm (l : List (Nat × Nat)) :
    (sort_descending_by_cumulative_difficulty l).Perm l :=
  List.mergeSort_perm l scoreLe

theorem sort_scores_of_sorted {l : List (Nat × Nat)}
    (h : List.Pairwise ScoreRel l) :
    sort_descending_by_cumulative_difficulty l = l :=
  List.mergeSort_of_sorted (h.imp fun ha => (scoreLe_iff _ _).mpr ha)

instance : DecidableRel ScoreRel := fun x y => by
  unfold ScoreRel; infer_instance

/-- C1: `sort_descending_by_cumulative_difficulty` reorders its input so
that a pair with strictly higher cumulative difficulty precedes one with
lower difficulty, and among pairs with equal difficulty the
lexicographically higher hash precedes the lower one; whenever the
result has length ≥ 2 the first difficulty is ≥ the second; sorting an
already-sorted vector leaves it unchanged, and the sort is idempotent
(deterministic). -/
theorem sort_descending_by_cumulative_difficulty_spec
    (l : List (Nat × Nat)) :
    (sort_descending_by_cumulative_difficulty l).Perm l
    ∧ List.Pairwise ScoreRel (sort_descending_by_cumulative_difficulty l)
    ∧ (∀ x y rest,
        sort_descending_by_cumulative_difficulty l = x :: y :: rest →
        y.2 ≤ x.2)
    ∧ (List.Pairwise ScoreRel l →
        sort_descending_by_cumulative_difficulty l = l)
    ∧ sort_descending_by_cumulative_difficulty
        (sort_descending_by_cumulative_difficulty l)
      = sort_descending_by_cumulative_difficulty l := by
  refine ⟨sort_scores_perm l, sort_scores_pairwise l, ?_,
    fun h => sort_scores_of_sorted h,
    sort_scores_of_sorted (sort_scores_pairwise l)⟩
  intro x y rest h
  have hp := sort_scores_pairwise l
  rw [h] at hp
  have hxy := (List.pairwise_cons.mp hp).1 y (by simp)
  unfold ScoreRel at hxy
  omega

/-- Witness for C1 at a concrete input: the already-sorted vector
`[(hash 2, diff 100), (hash 1, diff 100)]` (equal difficulties, higher
hash first) is left unchanged. -/
theorem sort_descending_by_cumulative_difficulty_spec_witness :
    sort_descending_by_cumulative_difficulty [(2, 100), (1, 100)]
      = [(2, 100), (1, 100)] :=
  (sort_descending_by_cumulative_difficulty_spec
    [(2, 100), (1, 100)]).2.2.2.1 (by decide)

/-! ## `sort_tips` — `blockdag.rs:22-45`

The storage oracle stands for
`Storage::get_cumulative_difficulty_for_block_hash`; per spec §6.1 the
call is fallible with a storage-specific error, modelled as a `Nat`
code that `sort_tips` propagates wrapped in `BlockchainError`. -/

/-- The variants of `BlockchainError` (`core/error.rs`) reachable from
`sort_tips`: `ExpectedTips` (`blockdag.rs:24`), or an error propagated
from the storage lookup (spec §6.1: storage "may fail with a
storage-specific error"). -/
inductive BlockchainError where
  | ExpectedTips
  | StorageError (code : Nat)
deriving DecidableEq

/-- The loop of `sort_tips` (`blockdag.rs:31-35`): materialise
`(hash, cumulative_difficulty)` pairs by querying storage for each tip
in order, aborting at the first failing lookup (the `?` operator).
Also returns the log of storage lookups performed. -/
def collectScores (cd : Nat → Except Nat Nat) :
    List Nat → Except BlockchainError (List (Nat × Nat)) × List Nat
  | [] => (.ok [], [])
  | h :: t =>
    match cd h with
    | .error e => (.error (.StorageError e), [h])
    | .ok d =>
      match collectScores cd t with
      | (.ok rest, log) => (.ok ((h, d) :: rest), h :: log)
      | (.error e, log) => (.error e, h :: log)

/-- `sort_tips` (`blockdag.rs:22-45`).  The second component is the log
of storage lookups the call performed. -/
def sort_tips (cd : Nat → Except Nat Nat) (tips : List Nat) :
    Except BlockchainError (List Nat) × List Nat :=
  if tips.length = 0 then (.error .ExpectedTips, [])
  else if tips.length = 1 then (.ok tips, [])
  else
    match collectScores cd tips with
    | (.ok scores, log) =>
        (.ok ((sort_descending_by_cumulative_difficulty scores).map
          Prod.fst), log)
    | (.error e, log) => (.error e, log)

theorem collectScores_error_is_storage (cd : Nat → Except Nat Nat)
    (tips : List Nat) (e : BlockchainError)
    (h : (collectScores cd tips).1 = .error e) :
    ∃ c, e = .StorageError c := by
  induction tips with
  | nil => simp [collectScores] at h
  | cons x t ih =>
    unfold collectScores at h
    cases hx : cd x with
    | error c => rw [hx] at h; exact ⟨c, by simpa using h.symm⟩
    | ok d =>
      rw [hx] at h
      cases ht : collectScores cd t with
      | mk r log =>
        cases r with
        | ok rest => rw [ht] at h; simp at h
        | error e2 =>
          rw [ht] at h
          simp at h
          subst h
          exact ih (by rw [ht])

theorem collectScores_all_ok (cd : Nat → Except Nat Nat) (d : Nat → Nat)
    (tips : List Nat) (h : ∀ x ∈ tips, cd x = .ok (d x)) :
    collectScores cd tips = (.ok (tips.map fun x => (x, d x)), tips) := by
  induction tips with
  | nil => simp [collectScores]
  | cons x t ih =>
    unfold collectScores
    rw [h x (by simp), ih (fun y hy => h y (by simp [hy]))]
    simp

/-- C7: `sort_tips` errors with `ExpectedTips` exactly on the empty tip
list; a singleton is returned verbatim with no storage lookup (for every
oracle, including one failing on any call); otherwise, when every lookup
succeeds, it returns the tip hashes ordered by descending cumulative
difficulty with the higher-hash-first tie-break, having looked up every
tip once. -/
theorem sort_tips_spec (cd : Nat → Except Nat Nat) (tips : List Nat)
    (d : Nat → Nat) :
    ((sort_tips cd tips).1 = .error .ExpectedTips ↔ tips = [])
    ∧ (tips.length = 1 → sort_tips cd tips = (.ok tips, []))
    ∧ ((∀ x ∈ tips, cd x = .ok (d x)) → 2 ≤ tips.length →
        ∃ res, sort_tips cd tips = (.ok res, tips)
          ∧ res = (sort_descending_by_cumulative_difficulty
              (tips.map fun x => (x, d x))).map Prod.fst
          ∧ res.Perm tips
          ∧ res.Pairwise (fun a b => d b < d a ∨ (d a = d b ∧ b ≤ a))) := by
  refine ⟨?_, ?_, ?_⟩
  · constructor
    · intro h
      by_contra hne
      have hlen : tips.length ≠ 0 := by
        simpa using fun hl => hne (List.length_eq_zero.mp hl)
      unfold sort_tips at h
      rw [if_neg hlen] at h
      by_cases h1 : tips.length = 1
      · rw [if_pos h1] at h; simp at h
      · rw [if_neg h1] at h
        cases hc : collectScores cd tips with
        | mk r log =>
          cases r with
          | ok scores => rw [hc] at h; simp at h
          | error e =>
            rw [hc] at h
            simp at h
            obtain ⟨c, hcs⟩ :=
              collectScores_error_is_storage cd tips e (by rw [hc])
            rw [hcs] at h
            exact BlockchainError.noConfusion h.symm
    · intro h
      subst h
      simp [sort_tips]
  · intro h1
    unfold sort_tips
    rw [if_neg (by omega), if_pos h1]
  · intro hok hlen
    have hc := collectScores_all_ok cd d tips hok
    refine ⟨(sort_descending_by_cumulative_difficulty
      (tips.map fun x => (x, d x))).map Prod.fst, ?_, rfl, ?_, ?_⟩
    · unfold sort_tips
      rw [if_neg (by omega), if_neg (by omega), hc]
    · have hp : (sort_descending_by_cumulative_difficulty
          (tips.map fun x => (x, d x))).Perm
            (tips.map fun x => (x, d x)) := sort_scores_perm _
      have h2 := hp.map Prod.fst
      have h3 : (tips.map fun x => (x, d x)).map Prod.fst = tips := by
        rw [List.map_map]
        exact List.map_id'' (fun x => rfl) tips
      rw [h3] at h2
      exact h2
    · have hp := sort_scores_pairwise (tips.map fun x => (x, d x))
      have hmem : ∀ p ∈ sort_descending_by_cumulative_difficulty
          (tips.map fun x => (x, d x)), p.2 = d p.1 := by
        intro p hpmem
        have : p ∈ tips.map fun x => (x, d x) :=
          (sort_scores_perm _).mem_iff.mp hpmem
        obtain ⟨x, -, hx⟩ := List.mem_map.mp this
        rw [← hx]
      rw [List.pairwise_map]
      refine hp.imp_of_mem ?_
      intro a b ha hb hab
      have ha2 := hmem a ha
      have hb2 := hmem b hb
      unfold ScoreRel at hab
      omega

/-- Witness for C7 at a concrete input: a singleton tip list is returned
verbatim with no storage lookup, even against an oracle that fails on
every call. -/
theorem sort_tips_spec_witness :
    sort_tips (fun _ => .error 0) [5] = (.ok [5], []) :=
  (sort_tips_spec (fun _ => .error 0) [5] (fun _ => 0)).2.1 (by decide)

/-! ## 4.D Cached verification state —
`src/xelis_daemon/src/core/cached_state.rs`

`CachedCiphertext` is an opaque additively-homomorphic encrypted
integer whose default value represents encrypted zero and whose
equality is structural (spec §3); it is modelled as `Nat` with
encrypted-zero `0`.  Public keys and asset hashes are `Nat`.
`HashMap`s are embedded as association lists with at most one binding
per key; `mapFind?` / `mapInsert` mirror lookup and entry-upsert. -/

/-- `HashMap` lookup. -/
def mapFind? {α β : Type} [DecidableEq α] (m : List (α × β)) (k : α) :
    Option β :=
  match m with
  | [] => none
  | (k2, v) :: t => if k2 = k then some v else mapFind? t k

/-- `HashMap` upsert (the `Entry` API: replace the binding if the key is
present, insert it otherwise). -/
def mapInsert {α β : Type} [DecidableEq α] (m : List (α × β)) (k : α)
    (v : β) : List (α × β) :=
  match m with
  | [] => [(k, v)]
  | (k2, v2) :: t =>
      if k2 = k then (k, v) :: t else (k2, v2) :: mapInsert t k v

theorem mapFind?_insert_self {α β : Type} [DecidableEq α]
    (m : List (α × β)) (k : α) (v : β) :
    mapFind? (mapInsert m k v) k = some v := by
  induction m with
  | nil => simp [mapInsert, mapFind?]
  | cons kv t ih =>
    unfold mapInsert
    by_cases h : kv.1 = k
    · rw [show (kv.1, kv.2) = kv from rfl] at *
      simp only [h]
      simp [mapFind?]
    · simp only [h, if_neg, if_false]
      simp [mapFind?, h, ih]

/-- `Updatable<T>` (`cached_state.rs:22-53`): a value together with a
dirty bit. -/
structure Updatable (T : Type) where
  inner : T
  modified : Bool
deriving DecidableEq

/-- `Updatable::new` (`cached_state.rs:28-36`): the flag starts clear. -/
def Updatable.new {T : Type} (inner : T) : Updatable T :=
  { inner := inner, modified := false }

/-- `Updatable::is_modified` (`cached_state.rs:38-40`). -/
def Updatable.is_modified {T : Type} (u : Updatable T) : Bool :=
  u.modified

/-- `Deref` (`cached_state.rs:42-47`): read-only access to the value;
no field changes. -/
def Updatable.deref {T : Type} (u : Updatable T) : T :=
  u.inner

/-- `DerefMut` (`cached_state.rs:48-53`): any mutable access sets
`modified` and hands out the value for mutation; `f` is whatever the
caller does through the returned `&mut T` (possibly nothing, `f = id`). -/
def Updatable.derefMut {T : Type} (u : Updatable T) (f : T → T) :
    Updatable T :=
  { inner := f u.inner, modified := true }

/-- The operations available on an `Updatable<T>` after construction:
a shared (`Deref`) access or a mutable (`DerefMut`) access. -/
inductive UpdOp (T : Type) where
  | read
  | write (f : T → T)

/-- Run one access against the wrapper. A `read` leaves the wrapper
untouched (`deref` takes `&self`); a `write f` is `derefMut`. -/
def Updatable.applyOp {T : Type} (u : Updatable T) : UpdOp T → Updatable T
  | .read => u
  | .write f => u.derefMut f

/-- Run a sequence of accesses. -/
def Updatable.applyOps {T : Type} (u : Updatable T) :
    List (UpdOp T) → Updatable T
  | [] => u
  | op :: rest => (u.applyOp op).applyOps rest

/-- C8: `Updatable::new` starts with `is_modified() == false`; any
mutable access (`DerefMut`) sets the flag; a read-only access changes
nothing; and once set, no sequence of further accesses (short of
replacing the wrapper) ever clears the flag. -/
theorem Updatable.dirty_bit_spec {T : Type} (v : T) (u : Updatable T)
    (f : T → T) (ops : List (UpdOp T)) :
    (Updatable.new v).is_modified = false
    ∧ (u.derefMut f).is_modified = true
    ∧ u.applyOp .read = u
    ∧ (u.is_modified = true → (u.applyOps ops).is_modified = true) := by
  refine ⟨rfl, rfl, rfl, ?_⟩
  induction ops generalizing u with
  | nil => intro h; exact h
  | cons op rest ih =>
    intro h
    unfold Updatable.applyOps
    apply ih
    cases op with
    | read => exact h
    | write f => rfl

/-- Witness for C8 at a concrete input: a wrapper made dirty by one
mutable access stays dirty across a later read-only access. -/
theorem Updatable.dirty_bit_spec_witness :
    (((Updatable.new (0 : Nat)).derefMut id).applyOps [.read]).is_modified
      = true :=
  (Updatable.dirty_bit_spec 0 ((Updatable.new (0 : Nat)).derefMut id) id
    [.read]).2.2.2 rfl

/-- `CachedVersionedBalance` (`cached_state.rs:55-85`), fields in source
order; `#[derive(Default)]` gives `{ output_balance: None,
final_balance: encrypted-zero, previous_topoheight: None }`. -/
structure CachedVersionedBalance where
  output_balance : Option Nat
  final_balance : Nat
  previous_topoheight : Option Nat
deriving DecidableEq

instance : Inhabited CachedVersionedBalance :=
  ⟨{ output_balance := none, final_balance := 0,
     previous_topoheight := none }⟩

/-- `CachedVersionedBalance::effective_balance` (`cached_state.rs:78-80`):
`output_balance` if present, else `final_balance`. -/
def CachedVersionedBalance.effective_balance
    (b : CachedVersionedBalance) : Nat :=
  b.output_balance.getD b.final_balance

/-- `CachedVersionedBalance::update_balance` (`cached_state.rs:82-84`):
sets `output_balance := Some(ct)`; `final_balance` untouched. -/
def CachedVersionedBalance.update_balance (b : CachedVersionedBalance)
    (ct : Nat) : CachedVersionedBalance :=
  { b with output_balance := some ct }

/-- Modelled from the spec: `VersionedBalance` (§3, defined in
`xelis_common::account`, not under `src/`):
`{final_balance, output_balance: Optional, previous_topoheight:
Optional}`. -/
structure VersionedBalance where
  final_balance : Nat
  output_balance : Option Nat
  previous_topoheight : Option Nat
deriving DecidableEq

/-- Modelled from the spec: `VersionedBalance::new(final, previous)`
(used by the `From` impl at `cached_state.rs:69`) builds a version with
the given final balance and predecessor link and no output balance. -/
def VersionedBalance.new (final : Nat) (previous : Option Nat) :
    VersionedBalance :=
  { final_balance := final, output_balance := none,
    previous_topoheight := previous }

/-- Modelled from the spec: `VersionedBalance::set_output_balance`
(used by the `From` impl at `cached_state.rs:71`). -/
def VersionedBalance.set_output_balance (v : VersionedBalance)
    (ct : Nat) : VersionedBalance :=
  { v with output_balance := some ct }

/-- `impl From<CachedVersionedBalance> for VersionedBalance`
(`cached_state.rs:67-75`). -/
def CachedVersionedBalance.toVersioned (value : CachedVersionedBalance) :
    VersionedBalance :=
  let v := VersionedBalance.new value.final_balance
    value.previous_topoheight
  match value.output_balance with
  | some bal => v.set_output_balance bal
  | none => v

/-- `CachedAccount` (`cached_state.rs:87-90`): asset hash →
`Updatable<CachedVersionedBalance>`. -/
structure CachedAccount where
  balances : List (Nat × Updatable CachedVersionedBalance)
deriving DecidableEq

instance : Inhabited CachedAccount := ⟨⟨[]⟩⟩

/-- `CachedState` (`cached_state.rs:105-111`). -/
structure CachedState where
  topoheight : Nat
  balances : List (Nat × Updatable CachedAccount)
  nonces : List (Nat × Updatable Nat)
deriving DecidableEq

/-- `CachedState::get_balance` (`cached_state.rs:178-191`).  The source
takes `&self` and always returns `Ok`, so it is embedded as a pure
projection; a missing account, or a missing asset inside a present
account, yields `CachedCiphertext::default()` (encrypted zero, `0`). -/
def CachedState.get_balance (s : CachedState) (account asset : Nat) :
    Nat :=
  match mapFind? s.balances account with
  | none => 0
  | some accU =>
    match mapFind? accU.inner.balances asset with
    | none => 0
    | some balU => balU.inner.effective_balance

/-- `CachedState::update_balance` (`cached_state.rs:193-211`).
`entry(..).or_insert(Default::default())` installs a clear-flagged
default wrapper when the key is missing; the subsequent accesses to
`account.balances` and `bal` go through `DerefMut`, so both the outer
and the inner wrapper end up marked modified. -/
def CachedState.update_balance (s : CachedState) (account asset ct : Nat) :
    CachedState :=
  let accU := (mapFind? s.balances account).getD
    (Updatable.new default)
  let balU := (mapFind? accU.inner.balances asset).getD
    (Updatable.new default)
  let balU2 : Updatable CachedVersionedBalance :=
    balU.derefMut (fun b => b.update_balance ct)
  let accU2 : Updatable CachedAccount :=
    { inner := ⟨mapInsert accU.inner.balances asset balU2⟩,
      modified := true }
  { s with balances := mapInsert s.balances account accU2 }

/-- `CachedState::get_account_nonce` (`cached_state.rs:213-216`):
the cached nonce, or `0` when absent. -/
def CachedState.get_account_nonce (s : CachedState) (account : Nat) :
    Nat :=
  match mapFind? s.nonces account with
  | none => 0
  | some u => u.inner

/-- `CachedState::update_account_nonce` (`cached_state.rs:218-230`):
upsert through `DerefMut`, so the entry is always marked modified. -/
def CachedState.update_account_nonce (s : CachedState)
    (account new_nonce : Nat) : CachedState :=
  { s with
    nonces := mapInsert s.nonces account ⟨new_nonce, true⟩ }

/-- `CachedState::apply_updates` (`cached_state.rs:143-171`), with
storage writes made explicit as logs.  The first component is the list
of `set_last_balance_to(key, asset, topoheight, versioned)` calls; the
second the list of `set_nonce_at_topoheight(key, topoheight, nonce)`
calls.  The source filters accounts by the outer dirty bit, then their
assets by the inner dirty bit; its nonce loop (`cached_state.rs:164-169`)
iterates the dirty nonce entries but the storage write in its body is
commented out (`// storage.set_nonce_at_topoheight(..)` and `// FIXME`),
so no nonce write is ever issued. -/
def CachedState.apply_updates (s : CachedState) (topoheight : Nat) :
    List (Nat × Nat × Nat × VersionedBalance) × List (Nat × Nat × Nat) :=
  let bals := (s.balances.filter (fun kv => kv.2.is_modified)).flatMap
    (fun kv =>
      (kv.2.inner.balances.filter (fun av => av.2.is_modified)).map
        (fun av => (kv.1, av.1, topoheight, av.2.inner.toVersioned)))
  let _nonces := s.nonces.filter (fun kv => kv.2.is_modified)
  (bals, [])

/-- C3: writing a balance through `update_balance` and immediately
reading it back through `get_balance` for the same (account, asset)
yields the written ciphertext; `get_balance` on an account missing from
the cache, or on an asset missing inside a present account, yields the
default encrypted-zero ciphertext (`get_balance` takes `&self` in the
source, so it cannot modify the state). -/
theorem CachedState.get_update_balance_spec (s : CachedState)
    (account asset ct : Nat) :
    (s.update_balance account asset ct).get_balance account asset = ct
    ∧ (mapFind? s.balances account = none →
        s.get_balance account asset = 0)
    ∧ (∀ accU, mapFind? s.balances account = some accU →
        mapFind? accU.inner.balances asset = none →
        s.get_balance account asset = 0) := by
  refine ⟨?_, ?_, ?_⟩
  · unfold CachedState.update_balance CachedState.get_balance
    simp only [mapFind?_insert_self]
    rfl
  · intro h
    unfold CachedState.get_balance
    rw [h]
  · intro accU h1 h2
    unfold CachedState.get_balance
    rw [h1]
    show (match mapFind? accU.inner.balances asset with
      | none => 0
      | some balU => balU.inner.effective_balance) = 0
    rw [h2]

/-- Witness for C3 at a concrete input: reading an account absent from
an empty cache yields encrypted zero, and a write followed by a read
returns the written ciphertext. -/
theorem CachedState.get_update_balance_spec_witness :
    CachedState.get_balance ⟨0, [], []⟩ 1 2 = 0
    ∧ (CachedState.update_balance ⟨0, [], []⟩ 1 2 33).get_balance 1 2
        = 33 :=
  ⟨(CachedState.get_update_balance_spec ⟨0, [], []⟩ 1 2 33).2.1 rfl,
   (CachedState.get_update_balance_spec ⟨0, [], []⟩ 1 2 33).1⟩

/-- C10: `update_balance` on a never-hydrated (account, asset) pair
creates the missing entries from `Default::default()`: the cached entry
ends up with `final_balance` = encrypted zero, `previous_topoheight` =
`None`, and only `output_balance` = `Some(ct)`; converting it to a
`VersionedBalance` (as `apply_updates` does) yields a version whose
final balance is encrypted zero and which links to no predecessor. -/
theorem CachedState.update_balance_fresh_spec (s : CachedState)
    (account asset ct : Nat)
    (h : mapFind? s.balances account = none
      ∨ ∃ accU, mapFind? s.balances account = some accU
          ∧ mapFind? accU.inner.balances asset = none) :
    ∃ accU2,
      mapFind? (s.update_balance account asset ct).balances account
        = some accU2
      ∧ mapFind? accU2.inner.balances asset
        = some ⟨{ output_balance := some ct, final_balance := 0,
                  previous_topoheight := none }, true⟩
      ∧ CachedVersionedBalance.toVersioned
          { output_balance := some ct, final_balance := 0,
            previous_topoheight := none }
        = { final_balance := 0, output_balance := some ct,
            previous_topoheight := none } := by
  unfold CachedState.update_balance
  rcases h with h | ⟨accU, h1, h2⟩
  · rw [h]
    exact ⟨_, mapFind?_insert_self _ _ _, mapFind?_insert_self _ _ _, rfl⟩
  · rw [h1]
    simp only [Option.getD_some, h2]
    exact ⟨_, mapFind?_insert_self _ _ _, mapFind?_insert_self _ _ _, rfl⟩

/-- Witness for C10 at a concrete input: updating a fresh pair in the
empty cache installs `{output: Some 33, final: 0, previous: None}`. -/
theorem CachedState.update_balance_fresh_spec_witness :
    ∃ accU2,
      mapFind? (CachedState.update_balance ⟨0, [], []⟩ 1 2 33).balances 1
        = some accU2
      ∧ mapFind? accU2.inner.balances 2
        = some ⟨{ output_balance := some 33, final_balance := 0,
                  previous_topoheight := none }, true⟩
      ∧ CachedVersionedBalance.toVersioned
          { output_balance := some 33, final_balance := 0,
            previous_topoheight := none }
        = { final_balance := 0, output_balance := some 33,
            previous_topoheight := none } :=
  CachedState.update_balance_fresh_spec ⟨0, [], []⟩ 1 2 33 (Or.inl rfl)

/-- C2 (evaluated at the failing input): `apply_updates` issues exactly
the balance writes of the dirty (account, asset) pairs — here the one
dirty asset of the one dirty account, and nothing for the untouched
account — but issues *no* nonce write even though one nonce entry is
dirty, because the nonce write in the source is commented out
(`cached_state.rs:167`, `// FIXME`). -/
theorem CachedState.apply_updates_nonce_write_missing :
    CachedState.apply_updates
      { topoheight := 0,
        balances :=
          [(1, ⟨⟨[(7, ⟨⟨some 5, 9, some 3⟩, true⟩)]⟩, true⟩),
           (2, ⟨⟨[(7, ⟨⟨none, 4, none⟩, false⟩)]⟩, false⟩)],
        nonces := [(1, ⟨11, true⟩)] } 42
      = ([(1, 7, 42, ⟨9, some 5, some 3⟩)], [])
    ∧ List.filter (fun kv => kv.2.is_modified)
        [((1 : Nat), (⟨11, true⟩ : Updatable Nat))] = [(1, ⟨11, true⟩)] := by
  constructor
  · rfl
  · rfl

/-! ## Hydration — `CachedState::init_from_storage_for_tx`
(`cached_state.rs:114-141`) -/

/-- The outcome of the hydration path: success, a returned `Err(())`,
or a Rust panic (`todo!()` unwinding). -/
inductive Outcome (α : Type) where
  | ok (a : α)
  | error
  | panic
deriving DecidableEq

/-- `CachedAccount::init_for_account` (`cached_state.rs:93-103`): the
body is `todo!()` (its doc comment promises to fetch the account from
storage), so every call panics. -/
def CachedAccount.init_for_account {S : Type} (_self : CachedAccount)
    (_storage : S) (_key _topoheight : Nat) : Outcome CachedAccount :=
  .panic

/-- `CachedState::init_from_storage_for_tx` (`cached_state.rs:114-141`).
The transaction is represented by the account list yielded by
`tx.get_modified_accounts()` (spec §3).  For each account the source
builds `acc = CachedAccount::default()`, calls `init_for_account` on a
second, immediately discarded `CachedAccount::default()` (so `acc`
would stay empty even if `init_for_account` returned), and on success
inserts `(key, Updatable::new(acc))`; the nonce prefetch is absent
(`// FIXME: fetch nonces too`, `cached_state.rs:138`).  The concurrent
`FuturesUnordered` fan-out is embedded sequentially; a panic or error
from any account aborts the whole call. -/
def CachedState.init_from_storage_for_tx {S : Type} (s : CachedState)
    (storage : S) : List Nat → Outcome CachedState
  | [] => .ok s
  | key :: rest =>
    let acc : CachedAccount := default
    match CachedAccount.init_for_account (default : CachedAccount)
        storage key s.topoheight with
    | .panic => .panic
    | .error => .error
    | .ok _ =>
      CachedState.init_from_storage_for_tx
        { s with
          balances := mapInsert s.balances key (Updatable.new acc) }
        storage rest

/-- C4 (evaluated at the failing input): any transaction naming at
least one modified account drives `init_from_storage_for_tx` into the
`todo!()` panic of `CachedAccount::init_for_account`, so hydration
never succeeds; with no named account the state is returned unchanged,
so no balance or nonce is ever prefetched. -/
theorem CachedState.init_from_storage_for_tx_panics {S : Type}
    (s : CachedState) (storage : S) (accounts : List Nat)
    (h : accounts ≠ []) :
    s.init_from_storage_for_tx storage accounts = .panic
    ∧ s.init_from_storage_for_tx storage [] = .ok s := by
  constructor
  · cases accounts with
    | nil => exact absurd rfl h
    | cons k rest => rfl
  · rfl

/-- Witness for C4 at a concrete input: hydrating a transaction that
names account `1` panics. -/
theorem CachedState.init_from_storage_for_tx_panics_witness :
    CachedState.init_from_storage_for_tx ⟨0, [], []⟩ (0 : Nat) [1]
      = .panic :=
  (CachedState.init_from_storage_for_tx_panics ⟨0, [], []⟩ (0 : Nat) [1]
    (by decide)).1

/-! ## 4.F Ping gossip — `src/xelis_daemon/src/p2p/packet/ping.rs`

Socket addresses are opaque identifiers compared for equality,
modelled as `Nat`. -/

/-- `Direction` (spec §3): how the local node learned a peer address —
inbound, advertised outbound, or both. -/
inductive Direction where
  | In
  | Out
  | Both
deriving DecidableEq

/-- Modelled from the spec: `Direction::update_allow_in(Direction::In)`
(`xelis_common::api::daemon`, not under `src/`) "must return true —
false means a duplicate `In` was reported" (spec §4.F); on success the
stored direction also records the inbound report. -/
def Direction.updateAllowIn : Direction → Bool × Direction
  | .In => (false, .In)
  | .Both => (false, .Both)
  | .Out => (true, .Both)

/-- The `P2pError` variant `update_peer` can produce
(`p2p/error.rs:23`). -/
inductive P2pError where
  | InvalidProtocolRules
deriving DecidableEq

/-- Modelled from the spec: the mutable state of a `Peer`
(`p2p/peer.rs`, not under `src/`; spec §3): cached top hash, topoheight,
height, optional pruned topoheight, cumulative difficulty, the two
fixed addresses and the known-peer set.  `is_pruned()` holds exactly
when `pruned_topoheight` is `Some`. -/
structure Peer where
  top_hash : Nat
  topoheight : Nat
  height : Nat
  pruned_topoheight : Option Nat
  cumulative_difficulty : Nat
  connection_address : Nat
  outgoing_address : Nat
  peers : List (Nat × Direction)
deriving DecidableEq

/-- The `Ping` packet payload (`ping.rs:31-39`). -/
structure Ping where
  top_hash : Nat
  topoheight : Nat
  height : Nat
  pruned_topoheight : Option Nat
  cumulative_difficulty : Nat
  peer_list : List Nat
deriving DecidableEq

/-- The peer-list merge loop of `update_peer` (`ping.rs:95-111`):
reject the peer's own connection or outgoing address; for a known
address require `update_allow_in(Direction::In)` to succeed; insert
unknown addresses with direction `In`.  The peer set is mutated in
place, so insertions made before a rejection persist. -/
def mergePeerList (connAddr outAddr : Nat) :
    List (Nat × Direction) → List Nat →
    List (Nat × Direction) × Option P2pError
  | peers, [] => (peers, none)
  | peers, addr :: rest =>
    if connAddr = addr ∨ outAddr = addr then
      (peers, some .InvalidProtocolRules)
    else
      match mapFind? peers addr with
      | some dir =>
        let (allowed, dir2) := dir.updateAllowIn
        if allowed then
          mergePeerList connAddr outAddr (mapInsert peers addr dir2) rest
        else (peers, some .InvalidProtocolRules)
      | none =>
        mergePeerList connAddr outAddr (mapInsert peers addr .In) rest

/-- `Ping::update_peer` (`ping.rs:53-127`), as the state transition on
the peer: the final peer state (the source mutates the shared peer
before any check, so mutations survive a rejection) together with the
returned error, if any.  The RPC event emissions touch no peer state
and are omitted. -/
def Ping.update_peer (p : Ping) (peer : Peer) : Peer × Option P2pError :=
  let peer1 := { peer with
    top_hash := p.top_hash, topoheight := p.topoheight,
    height := p.height }
  if peer.pruned_topoheight.isSome ∧ p.pruned_topoheight = none then
    (peer1, some .InvalidProtocolRules)
  else
    let bounds : Option P2pError :=
      match p.pruned_topoheight with
      | some pt =>
        if p.topoheight < pt then some .InvalidProtocolRules
        else
          match peer.pruned_topoheight with
          | some old =>
            if pt < old then some .InvalidProtocolRules else none
          | none => none
      | none => none
    match bounds with
    | some e => (peer1, some e)
    | none =>
      let peer2 := { peer1 with
        pruned_topoheight := p.pruned_topoheight,
        cumulative_difficulty := p.cumulative_difficulty }
      if p.peer_list = [] then (peer2, none)
      else
        let (peers2, merr) := mergePeerList peer.connection_address
          peer.outgoing_address peer2.peers p.peer_list
        ({ peer2 with peers := peers2 }, merr)

/-- C6 as stated is false: on a Ping omitting `pruned_topoheight` sent
by a peer known pruned at 10, `update_peer` does return
`InvalidProtocolRules`, but the peer state is *not* unchanged — the
cached top hash, topoheight and height were overwritten before the
check (`ping.rs:55-57`). -/
theorem Ping.update_peer_mutates_on_unprune_reject :
    (Ping.update_peer ⟨200, 7, 8, none, 60, []⟩
        ⟨100, 5, 5, some 10, 50, 1, 2, []⟩).2
      = some .InvalidProtocolRules
    ∧ (Ping.update_peer ⟨200, 7, 8, none, 60, []⟩
        ⟨100, 5, 5, some 10, 50, 1, 2, []⟩).1.topoheight = 7
    ∧ (⟨100, 5, 5, some 10, 50, 1, 2, []⟩ : Peer).topoheight = 5
    ∧ (Ping.update_peer ⟨200, 7, 8, none, 60, []⟩
        ⟨100, 5, 5, some 10, 50, 1, 2, []⟩).1
      ≠ ⟨100, 5, 5, some 10, 50, 1, 2, []⟩ := by
  refine ⟨rfl, rfl, rfl, ?_⟩
  decide

/-- C6 (amended): for every peer whose stored `pruned_topoheight` is
`Some v`, a Ping whose `pruned_topoheight` is `None` is rejected with
`InvalidProtocolRules`; the peer's `pruned_topoheight`,
`cumulative_difficulty` and peer set are unchanged by the rejected
call, but its cached `top_hash`, `topoheight` and `height` have already
been overwritten with the Ping's values. -/
theorem Ping.update_peer_unprune_reject (peer : Peer) (p : Ping) (v : Nat)
    (h1 : peer.pruned_topoheight = some v)
    (h2 : p.pruned_topoheight = none) :
    Ping.update_peer p peer
      = ({ peer with
            top_hash := p.top_hash, topoheight := p.topoheight,
            height := p.height },
         some .InvalidProtocolRules) := by
  unfold Ping.update_peer
  rw [if_pos (by simp [h1, h2])]

/-- Witness for the amended C6 at a concrete input: peer pruned at 10,
Ping without a pruned topoheight. -/
theorem Ping.update_peer_unprune_reject_witness :
    Ping.update_peer ⟨200, 7, 8, none, 60, [9]⟩
        ⟨100, 5, 5, some 10, 50, 1, 2, []⟩
      = (⟨200, 7, 8, some 10, 50, 1, 2, []⟩,
         some .InvalidProtocolRules) :=
  Ping.update_peer_unprune_reject ⟨100, 5, 5, some 10, 50, 1, 2, []⟩
    ⟨200, 7, 8, none, 60, [9]⟩ 10 rfl rfl

/-! ## 4.H Serializer framework —
`src/xelis_common/src/serializer/defaults.rs`

The byte-level `Reader`/`Writer` live in `serializer/mod.rs`, which is
not under `src/`; following spec §4.H they are modelled over byte lists
with fixed-width big-endian integers, and a reader that runs out of
input fails (readers "validate length before allocation").  A byte is a
`Nat` (< 256 where it matters). -/

/-- The `ReaderError` variants the embedded readers produce. -/
inductive ReaderError where
  | InvalidSize
  | InvalidValue
deriving DecidableEq

/-- Modelled from the spec: `Reader::read_u8` — one byte off the front,
failing on empty input. -/
def read_u8 : List Nat → Except ReaderError (Nat × List Nat)
  | [] => .error .InvalidSize
  | b :: rest => .ok (b, rest)

/-- Modelled from the spec: `Reader::read_u16` — two bytes, big-endian. -/
def read_u16 : List Nat → Except ReaderError (Nat × List Nat)
  | b1 :: b2 :: rest => .ok (b1 * 256 + b2, rest)
  | _ => .error .InvalidSize

/-- `MAX_ITEMS` (`defaults.rs:91`). -/
def MAX_ITEMS : Nat := 1024

/-- The element-reading loop of `impl Serializer for Vec<T>`
(`defaults.rs:182-186`), generic in the element reader `readT`. -/
def readVecLoop {α : Type}
    (readT : List Nat → Except ReaderError (α × List Nat)) :
    Nat → List α → List Nat → Except ReaderError (List α × List Nat)
  | 0, acc, bytes => .ok (acc, bytes)
  | n + 1, acc, bytes =>
    match readT bytes with
    | .error e => .error e
    | .ok (v, bytes2) => readVecLoop readT n (acc ++ [v]) bytes2

/-- `<Vec<T> as Serializer>::read` (`defaults.rs:175-188`): u16 count,
`InvalidSize` when the count exceeds `MAX_ITEMS`, then `count`
elements. -/
def readVec {α : Type}
    (readT : List Nat → Except ReaderError (α × List Nat))
    (bytes : List Nat) : Except ReaderError (List α × List Nat) :=
  match read_u16 bytes with
  | .error e => .error e
  | .ok (count, rest) =>
    if MAX_ITEMS < count then .error .InvalidSize
    else readVecLoop readT count [] rest

/-- The element-reading loop shared by `BTreeSet` (`defaults.rs:101-108`)
and `IndexSet` (`defaults.rs:128-135`): `!set.insert(value)` — a value
equal to one already read — aborts with `InvalidSize`.  (The `BTreeSet`
additionally keeps its elements sorted; the claims here concern only
the count and duplicate checks, which are order-independent, so the
elements are kept in insertion order.) -/
def readSetLoop {α : Type} [DecidableEq α]
    (readT : List Nat → Except ReaderError (α × List Nat)) :
    Nat → List α → List Nat → Except ReaderError (List α × List Nat)
  | 0, acc, bytes => .ok (acc, bytes)
  | n + 1, acc, bytes =>
    match readT bytes with
    | .error e => .error e
    | .ok (v, bytes2) =>
      if v ∈ acc then .error .InvalidSize
      else readSetLoop readT n (acc ++ [v]) bytes2

/-- `<BTreeSet<T> as Serializer>::read` (`defaults.rs:94-110`) and
`<IndexSet<T> as Serializer>::read` (`defaults.rs:121-137`): u16 count,
`InvalidSize` when the count exceeds `MAX_ITEMS`, then `count` distinct
elements. -/
def readSet {α : Type} [DecidableEq α]
    (readT : List Nat → Except ReaderError (α × List Nat))
    (bytes : List Nat) : Except ReaderError (List α × List Nat) :=
  match read_u16 bytes with
  | .error e => .error e
  | .ok (count, rest) =>
    if MAX_ITEMS < count then .error .InvalidSize
    else readSetLoop readT count [] rest

/-- The pair-reading loop of `impl Serializer for HashMap<K, V>`
(`defaults.rs:224-228`): key then value, inserted with
`HashMap::insert` (replace on equal key). -/
def readMapLoop {κ ν : Type} [DecidableEq κ]
    (readK : List Nat → Except ReaderError (κ × List Nat))
    (readV : List Nat → Except ReaderError (ν × List Nat)) :
    Nat → List (κ × ν) → List Nat →
    Except ReaderError (List (κ × ν) × List Nat)
  | 0, acc, bytes => .ok (acc, bytes)
  | n + 1, acc, bytes =>
    match readK bytes with
    | .error e => .error e
    | .ok (k, bytes2) =>
      match readV bytes2 with
      | .error e => .error e
      | .ok (v, bytes3) => readMapLoop readK readV n (mapInsert acc k v) bytes3

/-- `<HashMap<K, V> as Serializer>::read` (`defaults.rs:221-231`):
reads a u16 size and then that many pairs — with *no* `MAX_ITEMS`
check (the impl is headed "Supports up to 2^16 elements"). -/
def readHashMap {κ ν : Type} [DecidableEq κ]
    (readK : List Nat → Except ReaderError (κ × List Nat))
    (readV : List Nat → Except ReaderError (ν × List Nat))
    (bytes : List Nat) : Except ReaderError (List (κ × ν) × List Nat) :=
  match read_u16 bytes with
  | .error e => .error e
  | .ok (size, rest) => readMapLoop readK readV size [] rest

theorem readMapLoop_zeros (n : Nat) :
    readMapLoop read_u8 read_u8 n [(0, 0)] (List.replicate (2 * n) 0)
      = .ok ([(0, 0)], []) := by
  induction n with
  | zero => rfl
  | succ k ih =>
    have h2 : 2 * (k + 1) = (2 * k) + 1 + 1 := by ring
    rw [h2, List.replicate_succ, List.replicate_succ]
    show readMapLoop read_u8 read_u8 (k + 1) [(0, 0)]
      (0 :: 0 :: List.replicate (2 * k) 0) = .ok ([(0, 0)], [])
    unfold readMapLoop
    show readMapLoop read_u8 read_u8 k (mapInsert [(0, 0)] 0 0)
      (List.replicate (2 * k) 0) = .ok ([(0, 0)], [])
    exact ih

/-- C9 as stated is false: the `HashMap` serializer does not enforce
`MAX_ITEMS`.  A buffer declaring 1025 entries (count bytes `[4, 1]`,
1025 > `MAX_ITEMS` = 1024) followed by 1025 `(u8, u8)` pairs decodes
successfully instead of returning `InvalidSize`. -/
theorem readHashMap_no_limit_counterexample :
    readHashMap read_u8 read_u8 (4 :: 1 :: List.replicate 2050 0)
      = .ok ([(0, 0)], [])
    ∧ MAX_ITEMS < 4 * 256 + 1 := by
  refine ⟨?_, by decide⟩
  show readMapLoop read_u8 read_u8 1025 [] (List.replicate 2050 0)
    = .ok ([(0, 0)], [])
  have h2 : (2050 : Nat) = 2 * 1024 + 1 + 1 := by decide
  rw [h2, List.replicate_succ, List.replicate_succ]
  show readMapLoop read_u8 read_u8 1025 [] (0 :: 0 :: List.replicate (2 * 1024) 0)
    = .ok ([(0, 0)], [])
  unfold readMapLoop
  show readMapLoop read_u8 read_u8 1024 (mapInsert [] 0 0)
    (List.replicate (2 * 1024) 0) = .ok ([(0, 0)], [])
  exact readMapLoop_zeros 1024

/-- C9 (amended): the `Vec`, `BTreeSet` and `IndexSet` serializers read
a u16 count and return `InvalidSize` whenever it exceeds
`MAX_ITEMS` = 1024; the set serializers return `InvalidSize` when a
decoded element duplicates one already read; the `HashMap` serializer
reads a u16 count but performs no `MAX_ITEMS` check — it proceeds to
read exactly the declared number of pairs. -/
theorem container_limit_spec {α κ ν : Type} [DecidableEq α]
    [DecidableEq κ]
    (readT : List Nat → Except ReaderError (α × List Nat))
    (readK : List Nat → Except ReaderError (κ × List Nat))
    (readV : List Nat → Except ReaderError (ν × List Nat))
    (b1 b2 : Nat) (rest : List Nat) (n : Nat) (acc : List α)
    (bytes bytes2 : List Nat) (v : α) :
    (MAX_ITEMS < b1 * 256 + b2 →
      readVec readT (b1 :: b2 :: rest) = .error .InvalidSize
      ∧ readSet readT (b1 :: b2 :: rest) = .error .InvalidSize)
    ∧ (readT bytes = .ok (v, bytes2) → v ∈ acc →
        readSetLoop readT (n + 1) acc bytes = .error .InvalidSize)
    ∧ readHashMap readK readV (b1 :: b2 :: rest)
        = readMapLoop readK readV (b1 * 256 + b2) [] rest := by
  refine ⟨?_, ?_, rfl⟩
  · intro h
    constructor
    · show (if MAX_ITEMS < b1 * 256 + b2 then Except.error ReaderError.InvalidSize
        else readVecLoop readT (b1 * 256 + b2) [] rest) = .error .InvalidSize
      rw [if_pos h]
    · show (if MAX_ITEMS < b1 * 256 + b2 then Except.error ReaderError.InvalidSize
        else readSetLoop readT (b1 * 256 + b2) [] rest) = .error .InvalidSize
      rw [if_pos h]
  · intro hr hmem
    unfold readSetLoop
    rw [hr]
    show (if v ∈ acc then Except.error ReaderError.InvalidSize
      else readSetLoop readT n (acc ++ [v]) bytes2) = .error .InvalidSize
    rw [if_pos hmem]

/-- Witness for the amended C9 at concrete inputs: a declared count of
1025 (bytes `[4, 1]`) makes the `Vec` and set serializers fail with
`InvalidSize`, and a set element equal to one already read fails with
`InvalidSize`. -/
theorem container_limit_spec_witness :
    (readVec read_u8 [4, 1] = .error .InvalidSize
      ∧ readSet read_u8 [4, 1] = .error .InvalidSize)
    ∧ readSetLoop read_u8 1 [7] [7] = .error .InvalidSize :=
  ⟨(container_limit_spec read_u8 read_u8 read_u8 4 1 [] 0 [] [] [] 0).1
      (by decide),
   (container_limit_spec read_u8 read_u8 read_u8 4 1 [] 0 [7] [7] [] 7).2.1
      rfl (by decide)⟩

/-! ## 4.E Packet envelope — `src/xelis_daemon/src/p2p/packet/mod.rs`

`Packet::write` (`mod.rs:120-142`) first serializes the variant body,
then emits a u32 total length (body length + 1 for the tag byte), the
one-byte tag, and the body.  The envelope *reader* lives in the p2p
connection code, which is not under `src/`; it is modelled from spec
§4.E: consume 4 bytes of length, read that many bytes, take the tag
from the first, hand the remainder to the variant reader dispatched on
the tag, and reject residual bytes with `InvalidPacketNotFullRead`.
The theorem is generic in the variant body codec (spec §1 declares the
wire format of inner payloads out of scope), assuming only that the
variant reader parses back what the variant writer produced. -/

/-- The `P2pError` decoding variants of the envelope path
(`p2p/error.rs:73-79`). -/
inductive PacketError where
  | InvalidPacket
  | InvalidPacketSize
  | InvalidPacketNotFullRead
deriving DecidableEq

/-- `Writer::write_u32`, big-endian bytes of `n % 2^32`. -/
def u32BytesBE (n : Nat) : List Nat :=
  [n / 2 ^ 24 % 256, n / 2 ^ 16 % 256, n / 2 ^ 8 % 256, n % 256]

/-- Recombine four big-endian bytes. -/
def u32FromBytes (a b c d : Nat) : Nat :=
  ((a * 256 + b) * 256 + c) * 256 + d

theorem u32_roundtrip (n : Nat) (h : n < 2 ^ 32) :
    u32FromBytes (n / 2 ^ 24 % 256) (n / 2 ^ 16 % 256) (n / 2 ^ 8 % 256)
      (n % 256) = n := by
  unfold u32FromBytes
  omega

/-- `Packet::write` (`mod.rs:120-142`): `packet_len` is the body length
cast to u32 plus one for the tag byte; then the u32 length, the tag
byte and the body bytes. -/
def packet_write (tag : Nat) (body : List Nat) : List Nat :=
  u32BytesBE ((body.length % 2 ^ 32 + 1) % 2 ^ 32) ++ tag % 256 :: body

/-- Modelled from the spec: the stage of the envelope reader after the
u32 length `n` has been consumed (§4.E): read `n` bytes, split off the
tag, dispatch the variant reader, and reject residual bytes with
`InvalidPacketNotFullRead`. -/
def read_packet_rest {β : Type}
    (readBody : Nat → List Nat → Except ReaderError (β × List Nat))
    (n : Nat) (rest : List Nat) : Except PacketError β :=
  if rest.length < n then .error .InvalidPacketSize
  else
    match rest.take n with
    | [] => .error .InvalidPacket
    | tag :: bodybuf =>
      match readBody tag bodybuf with
      | .error _ => .error .InvalidPacket
      | .ok (v, residual) =>
        if residual = [] then .ok v
        else .error .InvalidPacketNotFullRead

/-- Modelled from the spec: the envelope reader (§4.E, p2p connection
code not under `src/`): consume 4 bytes of big-endian length, then the
tagged body.  `readBody` is the tag-dispatched variant reader; it
returns the decoded value and the bytes it did not consume. -/
def read_packet {β : Type}
    (readBody : Nat → List Nat → Except ReaderError (β × List Nat)) :
    List Nat → Except PacketError β
  | a :: b :: c :: d :: rest =>
    read_packet_rest readBody (u32FromBytes a b c d) rest
  | [] => .error .InvalidPacketSize
  | [_] => .error .InvalidPacketSize
  | [_, _] => .error .InvalidPacketSize
  | [_, _, _] => .error .InvalidPacketSize

theorem read_packet_rest_cons {β : Type}
    (readBody : Nat → List Nat → Except ReaderError (β × List Nat))
    (t : Nat) (B : List Nat) :
    read_packet_rest readBody (B.length + 1) (t :: B)
      = match readBody t B with
        | .error _ => .error .InvalidPacket
        | .ok (v, residual) =>
          if residual = [] then .ok v
          else .error .InvalidPacketNotFullRead := by
  unfold read_packet_rest
  rw [if_neg (by simp), List.take_succ_cons, List.take_length]

theorem read_packet_write_aux {β : Type}
    (readBody : Nat → List Nat → Except ReaderError (β × List Nat))
    (tag : Nat) (p : β) (body extra : List Nat)
    (htag : tag < 256)
    (hlen : (body ++ extra).length < 2 ^ 32 - 1)
    (hread : readBody tag (body ++ extra) = .ok (p, extra)) :
    read_packet readBody (packet_write tag (body ++ extra))
      = if extra = [] then .ok p
        else .error .InvalidPacketNotFullRead := by
  have hm : ((body ++ extra).length % 2 ^ 32 + 1) % 2 ^ 32
      = (body ++ extra).length + 1 := by omega
  simp only [packet_write, u32BytesBE, List.cons_append, List.nil_append,
    hm, read_packet]
  rw [u32_roundtrip ((body ++ extra).length + 1) (by omega)]
  rw [read_packet_rest_cons, Nat.mod_eq_of_lt htag, hread]

theorem read_packet_take_short {β : Type}
    (readBody : Nat → List Nat → Except ReaderError (β × List Nat))
    (x0 x1 x2 x3 : Nat) (rest0 : List Nat) (k : Nat)
    (hk : k < rest0.length + 4)
    (hn : u32FromBytes x0 x1 x2 x3 = rest0.length) :
    ∃ e, read_packet readBody ((x0 :: x1 :: x2 :: x3 :: rest0).take k)
      = .error e := by
  rcases k with _ | k1
  · exact ⟨.InvalidPacketSize, rfl⟩
  rcases k1 with _ | k2
  · exact ⟨.InvalidPacketSize, rfl⟩
  rcases k2 with _ | k3
  · exact ⟨.InvalidPacketSize, rfl⟩
  rcases k3 with _ | j
  · exact ⟨.InvalidPacketSize, rfl⟩
  refine ⟨.InvalidPacketSize, ?_⟩
  simp only [List.take_succ_cons, read_packet]
  rw [hn]
  unfold read_packet_rest
  rw [if_pos]
  rw [List.length_take]
  omega

/-- C5: every packet is framed as a u32 total length (counting the tag
byte), one tag byte and the variant body, so the encoding is
`4 + 1 + body.len()` bytes; decoding the encoding returns the packet;
decoding any strict truncation fails; and extra bytes trailing the
variant body inside the envelope fail with `InvalidPacketNotFullRead`.
Generic in the variant body codec: `writeBody`/`readBody` are the
variant serializer, assumed to parse back exactly what it wrote. -/
theorem packet_envelope_spec {β : Type}
    (readBody : Nat → List Nat → Except ReaderError (β × List Nat))
    (writeBody : β → List Nat) (tag : Nat) (p : β)
    (htag : tag < 256)
    (hread : ∀ extra, readBody tag (writeBody p ++ extra) = .ok (p, extra))
    (hlen : (writeBody p).length < 2 ^ 32 - 1) :
    (packet_write tag (writeBody p)).length = 4 + 1 + (writeBody p).length
    ∧ read_packet readBody (packet_write tag (writeBody p)) = .ok p
    ∧ (∀ k, k < (packet_write tag (writeBody p)).length →
        ∃ e, read_packet readBody
          ((packet_write tag (writeBody p)).take k) = .error e)
    ∧ (∀ junk, junk ≠ [] → (writeBody p ++ junk).length < 2 ^ 32 - 1 →
        read_packet readBody (packet_write tag (writeBody p ++ junk))
          = .error .InvalidPacketNotFullRead) := by
  refine ⟨?_, ?_, ?_, ?_⟩
  · simp [packet_write, u32BytesBE]
    omega
  · have h := read_packet_write_aux readBody tag p (writeBody p) []
      htag (by simpa using hlen) (by simpa using hread [])
    simpa using h
  · intro k hk
    have hm : ((writeBody p).length % 2 ^ 32 + 1) % 2 ^ 32
        = (writeBody p).length + 1 := by omega
    have hlen2 : (packet_write tag (writeBody p)).length
        = (writeBody p).length + 5 := by
      simp [packet_write, u32BytesBE]
    rw [hlen2] at hk
    simp only [packet_write, u32BytesBE, List.cons_append,
      List.nil_append, hm]
    apply read_packet_take_short
    · simp
      omega
    · rw [show (tag % 256 :: writeBody p).length
          = (writeBody p).length + 1 from by simp]
      exact u32_roundtrip ((writeBody p).length + 1) (by omega)
  · intro junk hj hlen2
    rw [read_packet_write_aux readBody tag p (writeBody p) junk htag
      hlen2 (hread junk)]
    rw [if_neg hj]

/-- Witness for C5 at a concrete input: tag 5 with a one-byte body `[7]`
under the u8 body codec: the encoding is 6 bytes, decodes back to 7,
and a trailing byte inside the envelope is rejected with
`InvalidPacketNotFullRead`. -/
theorem packet_envelope_spec_witness :
    (packet_write 5 [7]).length = 4 + 1 + 1
    ∧ read_packet (fun _ => read_u8) (packet_write 5 [7]) = .ok 7
    ∧ read_packet (fun _ => read_u8) (packet_write 5 ([7] ++ [9]))
        = .error .InvalidPacketNotFullRead := by
  have h := packet_envelope_spec (fun _ => read_u8) (fun b => [b]) 5 7
    (by decide) (fun extra => rfl) (by decide)
  exact ⟨h.1, h.2.1, h.2.2.2 [9] (by decide) (by decide)⟩

end Xelis
